import Mathlib

/-!
# Verification of `DbExperimentDataV1` (qiskit-experiments, database_service)

A shallow embedding of the experiment-data container of
`qiskit_experiments/database_service/db_experiment_data.py` and proofs about
its operations: status aggregation, job ingestion, raw-data bookkeeping,
figure storage, analysis-callback cancellation, the service binding, the
auto-save property and the serialization hooks.

Conventions of the embedding:
* Python `OrderedDict`-backed thread-safe maps are modelled as association
  lists with insertion-order semantics (`odGet`/`odSet`/`odDelete`); the
  `ThreadSafeOrderedDict` wrapper itself lives in `database_service/utils.py`
  and is modelled from the spec (an insertion-ordered mapping used identically
  to a native collection, so lookup of a missing key raises `KeyError`).
* Methods that can raise return their result inside `Except`; since Python
  exceptions propagate without rolling back earlier mutations, fallible
  mutators return the (possibly partially mutated) state *and* an `Except`
  value.
* Remote persistence calls (`save`, `save_metadata`, figure uploads) only
  interact with the external database service; their invocation is recorded
  in a ghost `save_log` field, the remote side itself is outside the model.
* Background execution is not run: submitting a task records a pending
  `Future` handle, and the task bodies (`_add_job_data`) are modelled as
  separate state transitions.
-/

namespace DbExpData

/-- `qiskit.providers.jobstatus.JobStatus`. -/
inductive JobStatus
  | INITIALIZING
  | QUEUED
  | VALIDATING
  | RUNNING
  | CANCELLED
  | DONE
  | ERROR
  deriving DecidableEq, Repr

/-- `ExperimentStatus` enum of `db_experiment_data.py`. -/
inductive ExperimentStatus
  | EMPTY
  | INITIALIZING
  | VALIDATING
  | QUEUED
  | RUNNING
  | CANCELLED
  | POST_PROCESSING
  | DONE
  | ERROR
  deriving DecidableEq, Repr

/-- `AnalysisStatus` enum of `db_experiment_data.py`. -/
inductive AnalysisStatus
  | QUEUED
  | RUNNING
  | CANCELLED
  | DONE
  | ERROR
  deriving DecidableEq, Repr

/-- Exceptions that the modelled methods can raise. -/
inductive PyError
  | typeError
  | valueError
  | keyError
  | dbExperimentDataError
  | dbExperimentEntryExists
  | dbExperimentEntryNotFound
  | qiskitError (msg : String)
  | jobResultError
  deriving DecidableEq, Repr

/-- A raw-result record ("datum"): a Python dict mapping field names to
values.  Only the keys that `db_experiment_data.py` reads or writes are
modelled as optional fields (`none` = key absent). -/
structure Datum where
  job_id : Option String := none
  counts : Option (List (String × Nat)) := none
  metadata : Option String := none
  shots : Option Nat := none
  meas_level : Option Nat := none
  meas_return : Option String := none
  deriving DecidableEq, Repr

/-- One entry of `result.results` of a `qiskit.result.Result`, together with
the derived views `result.data(i)` / `result.get_counts(i)` that
`_add_result_data` consumes. -/
structure ResultEntry where
  data0 : Datum := {}
  formattedCounts : List (String × Nat) := []
  headerMetadata : Option String := none
  shots : Nat := 0
  meas_level : Nat := 0
  meas_return : Option String := none
  deriving DecidableEq, Repr

/-- The slice of `qiskit.result.Result` consumed by `_add_result_data`. -/
structure PyResult where
  job_id : String
  results : List ResultEntry := []
  deriving DecidableEq, Repr

/-- The slice of the database-service collaborator that the container reads:
its `options`/`preferences` mappings exposing an `auto_save` preference. -/
structure Service where
  name : String := ""
  options_auto_save : Option Bool := none
  preferences_auto_save : Bool := false
  deriving DecidableEq, Repr

/-- The slice of a `Backend` consumed by the container: its name and the
experiment service its provider may offer (`none` models
`backend.provider().service("experiment")` raising). -/
structure Backend where
  name : String
  providerService : Option Service := none
  deriving DecidableEq, Repr

/-- The slice of a hardware `Job` consumed by the container: id, backend,
polled status and the result (`none` models `job.result()` raising). -/
structure Job where
  job_id : String
  backend : Backend := { name := "" }
  status : JobStatus := .INITIALIZING
  result : Option PyResult := none
  deriving DecidableEq, Repr

/-- A `concurrent.futures.Future` handle as observed by the container:
whether it is done, whether its callable raised, and (for analysis futures)
the first component of its result tuple. -/
structure Future where
  done : Bool := false
  hasException : Bool := false
  resultId : String := ""
  deriving DecidableEq, Repr

/-- The `AnalysisCallback` dataclass.  The `threading.Event` cancellation
signal is modelled by its set/unset state. -/
structure AnalysisCallback where
  name : String := ""
  callback_id : String := ""
  status : AnalysisStatus := .QUEUED
  error_msg : Option String := none
  event : Bool := false
  deriving DecidableEq, Repr

/-- The slice of a `DbAnalysisResultV1` that the container writes: its
service reference and auto-save flag. -/
structure DbAnalysisResult where
  result_id : String := ""
  service : Option Service := none
  auto_save : Bool := false
  deriving DecidableEq, Repr

/-- A stored figure value: raw bytes or a live matplotlib figure object
(identified by an opaque tag). -/
inductive FigureVal
  | bytes (b : List Nat)
  | mpl (tag : String)
  deriving DecidableEq, Repr

/-- A figure argument to `add_figures`: a file path, raw bytes, or a
matplotlib figure. -/
inductive FigureInput
  | path (p : String)
  | bytes (b : List Nat)
  | mpl (tag : String)
  deriving DecidableEq, Repr

/-- Ghost record of persistence entry points invoked on the external
database service. -/
inductive SaveEvent
  | fullSave
  | metadataSave
  | figureUpload (name : String) (isNew : Bool)
  deriving DecidableEq, Repr

/-- Modelled from the spec: `ThreadSafeOrderedDict` lookup
(`database_service/utils.py` is not among the provided sources; §4.1 of the
spec describes an insertion-ordered mapping with unique keys used identically
to a native collection).  `none` = key absent. -/
def odGet {α : Type} (m : List (String × α)) (k : String) : Option α :=
  match m with
  | [] => none
  | (k', v) :: rest => if k' = k then some v else odGet rest k

/-- Modelled from the spec: key-membership test of `ThreadSafeOrderedDict`. -/
def odContains {α : Type} (m : List (String × α)) (k : String) : Bool :=
  (odGet m k).isSome

/-- Modelled from the spec: `ThreadSafeOrderedDict` assignment — update in
place when the key exists, append otherwise (native `dict` semantics). -/
def odSet {α : Type} (m : List (String × α)) (k : String) (v : α) :
    List (String × α) :=
  match m with
  | [] => [(k, v)]
  | (k', v') :: rest =>
      if k' = k then (k', v) :: rest else (k', v') :: odSet rest k v

/-- Modelled from the spec: `ThreadSafeOrderedDict` deletion. -/
def odDelete {α : Type} (m : List (String × α)) (k : String) :
    List (String × α) :=
  match m with
  | [] => []
  | (k', v') :: rest =>
      if k' = k then rest else (k', v') :: odDelete rest k

/-- The mutable state of a `DbExperimentDataV1` instance (the attributes set
in `__init__`), plus the ghost `save_log`. -/
structure ExpData where
  _data : List Datum := []
  _jobs : List (String × Option Job) := []
  _job_futures : List (String × Future) := []
  _analysis_callbacks : List (String × AnalysisCallback) := []
  _analysis_futures : List (String × Future) := []
  _figures : List (String × Option FigureVal) := []
  _analysis_results : List (String × DbAnalysisResult) := []
  _deleted_figures : List String := []
  _deleted_analysis_results : List String := []
  _service : Option Service := none
  _backend : Option Backend := none
  _auto_save : Bool := false
  _created_in_db : Bool := false
  _id : String := ""
  _parent_id : Option String := none
  _type : String := "Unknown"
  _tags : List String := []
  _share_level : Option String := none
  _notes : String := ""
  _metadata : List (String × String) := []
  _source : String := ""
  _extra_data : List (String × String) := []
  _timeout_tasks : List (List String) := []
  save_log : List SaveEvent := []
  deriving DecidableEq, Repr

/-- `save_metadata()` / `_save_experiment_metadata()`: pushes the identity /
tag / notes / metadata fields to the remote service.  The remote interaction
is external to the model; its invocation is recorded in the ghost log. -/
def save_metadata (e : ExpData) : ExpData :=
  { e with save_log := e.save_log ++ [SaveEvent.metadataSave] }

/-- `save()`: persists metadata, all analysis results, pending deletions and
all figures to the remote service.  The remote interaction is external to
the model; its invocation is recorded in the ghost log. -/
def save (e : ExpData) : ExpData :=
  { e with save_log := e.save_log ++ [SaveEvent.fullSave] }

/-- The `job_ids` property: `self._jobs.keys()`. -/
def job_ids (e : ExpData) : List String :=
  e._jobs.map Prod.fst

/-- The set of statuses collected by `job_status()`: the loop
`for job in self._jobs.values(): if job: statuses.add(job.status())`
(jobs stored as `None` contribute no status). -/
def trackedStatuses (e : ExpData) : List JobStatus :=
  e._jobs.filterMap (fun p => p.2.map Job.status)

/-- `job_status()`: `DONE` when no jobs are tracked, otherwise the first
status present in the fixed precedence order. -/
def job_status (e : ExpData) : JobStatus :=
  if e._jobs.isEmpty then JobStatus.DONE
  else
    let statuses := trackedStatuses e
    if statuses.contains JobStatus.ERROR then JobStatus.ERROR
    else if statuses.contains JobStatus.CANCELLED then JobStatus.CANCELLED
    else if statuses.contains JobStatus.RUNNING then JobStatus.RUNNING
    else if statuses.contains JobStatus.QUEUED then JobStatus.QUEUED
    else if statuses.contains JobStatus.VALIDATING then JobStatus.VALIDATING
    else if statuses.contains JobStatus.INITIALIZING then JobStatus.INITIALIZING
    else JobStatus.DONE

/-- The statuses collected by `analysis_status()` over the callback
records. -/
def callbackStatuses (e : ExpData) : List AnalysisStatus :=
  e._analysis_callbacks.map (fun p => p.2.status)

/-- `analysis_status()`: precedence `ERROR > CANCELLED > RUNNING > QUEUED`,
default `DONE`. -/
def analysis_status (e : ExpData) : AnalysisStatus :=
  let statuses := callbackStatuses e
  if statuses.contains AnalysisStatus.ERROR then AnalysisStatus.ERROR
  else if statuses.contains AnalysisStatus.CANCELLED then AnalysisStatus.CANCELLED
  else if statuses.contains AnalysisStatus.RUNNING then AnalysisStatus.RUNNING
  else if statuses.contains AnalysisStatus.QUEUED then AnalysisStatus.QUEUED
  else AnalysisStatus.DONE

/-- The emptiness test opening `status()`:
`all(len(container) == 0 for container in [...])` over the seven
collections. -/
def allCollectionsEmpty (e : ExpData) : Bool :=
  e._data.isEmpty && e._jobs.isEmpty && e._job_futures.isEmpty &&
    e._analysis_callbacks.isEmpty && e._analysis_futures.isEmpty &&
    e._figures.isEmpty && e._analysis_results.isEmpty

/-- The job-status-to-experiment-status dict of `status()`; `none` models
the `KeyError` taken for `JobStatus.DONE`. -/
def statusJobMap : JobStatus → Option ExperimentStatus
  | .INITIALIZING => some .INITIALIZING
  | .QUEUED => some .QUEUED
  | .VALIDATING => some .VALIDATING
  | .RUNNING => some .RUNNING
  | .CANCELLED => some .CANCELLED
  | .ERROR => some .ERROR
  | .DONE => none

/-- The analysis-status-to-experiment-status dict of `status()`; `none`
models the `KeyError` taken for `QUEUED`/`RUNNING`. -/
def statusAnalysisMap : AnalysisStatus → Option ExperimentStatus
  | .DONE => some .DONE
  | .CANCELLED => some .CANCELLED
  | .ERROR => some .ERROR
  | .QUEUED => none
  | .RUNNING => none

/-- `status()`. -/
def status (e : ExpData) : ExperimentStatus :=
  if allCollectionsEmpty e then ExperimentStatus.EMPTY
  else
    match statusJobMap (job_status e) with
    | some s => s
    | none =>
        match statusAnalysisMap (analysis_status e) with
        | some s => s
        | none => ExperimentStatus.POST_PROCESSING

end DbExpData

namespace DbExpData

/-- A job handle used by the concrete witnesses. -/
def jRunning : Job := { job_id := "J1", status := JobStatus.RUNNING }

/-- Witness container for C1: a single tracked job in `RUNNING` state. -/
def exC1 : ExpData := { _jobs := [("J1", some jRunning)] }

/-- Witness container for C2: a `DONE` job, a `CANCELLED` job and a job
tracked with a null handle. -/
def exC2 : ExpData :=
  { _jobs := [("J1", some { job_id := "J1", status := JobStatus.DONE }),
              ("J2", some { job_id := "J2", status := JobStatus.CANCELLED }),
              ("J3", none)] }

/-- C1: `status()` returns `EMPTY` exactly when all seven collections are
empty; otherwise any non-DONE aggregate job status is mapped to the
corresponding coarse status; otherwise an aggregate analysis status of
`DONE`/`CANCELLED`/`ERROR` is mapped to that value; otherwise the result is
`POST_PROCESSING`. -/
theorem C1_status_spec (e : ExpData) :
    (status e = ExperimentStatus.EMPTY ↔ allCollectionsEmpty e = true) ∧
    (allCollectionsEmpty e = false →
      (job_status e = JobStatus.INITIALIZING →
        status e = ExperimentStatus.INITIALIZING) ∧
      (job_status e = JobStatus.QUEUED → status e = ExperimentStatus.QUEUED) ∧
      (job_status e = JobStatus.VALIDATING →
        status e = ExperimentStatus.VALIDATING) ∧
      (job_status e = JobStatus.RUNNING → status e = ExperimentStatus.RUNNING) ∧
      (job_status e = JobStatus.CANCELLED →
        status e = ExperimentStatus.CANCELLED) ∧
      (job_status e = JobStatus.ERROR → status e = ExperimentStatus.ERROR) ∧
      (job_status e = JobStatus.DONE →
        (analysis_status e = AnalysisStatus.DONE →
          status e = ExperimentStatus.DONE) ∧
        (analysis_status e = AnalysisStatus.CANCELLED →
          status e = ExperimentStatus.CANCELLED) ∧
        (analysis_status e = AnalysisStatus.ERROR →
          status e = ExperimentStatus.ERROR) ∧
        ((analysis_status e = AnalysisStatus.QUEUED ∨
            analysis_status e = AnalysisStatus.RUNNING) →
          status e = ExperimentStatus.POST_PROCESSING))) := by
  cases hemp : allCollectionsEmpty e with
  | true =>
      refine ⟨by simp [status, hemp], by simp⟩
  | false =>
      refine ⟨?_, fun _ => ?_⟩
      · cases hj : job_status e <;> cases ha : analysis_status e <;>
          simp [status, hemp, hj, ha, statusJobMap, statusAnalysisMap]
      · cases hj : job_status e <;> cases ha : analysis_status e <;>
          simp [status, hemp, hj, ha, statusJobMap, statusAnalysisMap]

/-- Witness for C1 at a concrete container: one `RUNNING` job makes the
collections non-empty and the status `RUNNING`. -/
theorem C1_status_spec_witness :
    allCollectionsEmpty exC1 = false ∧ status exC1 = ExperimentStatus.RUNNING :=
  ⟨by decide, ((C1_status_spec exC1).2 (by decide)).2.2.2.1 (by decide)⟩

/-- C2: `job_status()` returns `DONE` when no jobs are tracked, otherwise
the first status present among the tracked jobs' statuses in the precedence
order `ERROR`, `CANCELLED`, `RUNNING`, `QUEUED`, `VALIDATING`,
`INITIALIZING`, and `DONE` when none of those is present. -/
theorem C2_job_status_spec (e : ExpData) :
    (e._jobs = [] → job_status e = JobStatus.DONE) ∧
    (e._jobs ≠ [] →
      (JobStatus.ERROR ∈ trackedStatuses e → job_status e = JobStatus.ERROR) ∧
      (JobStatus.ERROR ∉ trackedStatuses e →
        (JobStatus.CANCELLED ∈ trackedStatuses e →
          job_status e = JobStatus.CANCELLED) ∧
        (JobStatus.CANCELLED ∉ trackedStatuses e →
          (JobStatus.RUNNING ∈ trackedStatuses e →
            job_status e = JobStatus.RUNNING) ∧
          (JobStatus.RUNNING ∉ trackedStatuses e →
            (JobStatus.QUEUED ∈ trackedStatuses e →
              job_status e = JobStatus.QUEUED) ∧
            (JobStatus.QUEUED ∉ trackedStatuses e →
              (JobStatus.VALIDATING ∈ trackedStatuses e →
                job_status e = JobStatus.VALIDATING) ∧
              (JobStatus.VALIDATING ∉ trackedStatuses e →
                (JobStatus.INITIALIZING ∈ trackedStatuses e →
                  job_status e = JobStatus.INITIALIZING) ∧
                (JobStatus.INITIALIZING ∉ trackedStatuses e →
                  job_status e = JobStatus.DONE))))))) := by
  constructor
  · intro h
    simp [job_status, h]
  · intro h
    have hE : e._jobs.isEmpty = false := by
      cases hj : e._jobs with
      | nil => exact absurd hj h
      | cons a l => rfl
    refine ⟨fun h1 => by simp [job_status, hE, h1], fun h1 => ?_⟩
    refine ⟨fun h2 => by simp [job_status, hE, h1, h2], fun h2 => ?_⟩
    refine ⟨fun h3 => by simp [job_status, hE, h1, h2, h3], fun h3 => ?_⟩
    refine ⟨fun h4 => by simp [job_status, hE, h1, h2, h3, h4], fun h4 => ?_⟩
    refine ⟨fun h5 => by simp [job_status, hE, h1, h2, h3, h4, h5], fun h5 => ?_⟩
    exact ⟨fun h6 => by simp [job_status, hE, h1, h2, h3, h4, h5, h6],
           fun h6 => by simp [job_status, hE, h1, h2, h3, h4, h5, h6]⟩

/-- Witness for C2 at a concrete container: among a `DONE` job, a
`CANCELLED` job and a null handle, the precedence picks `CANCELLED`. -/
theorem C2_job_status_spec_witness :
    job_status exC2 = JobStatus.CANCELLED :=
  (((C2_job_status_spec exC2).2 (by decide)).2 (by decide)).1 (by decide)

end DbExpData

namespace DbExpData

/-- `_set_service_from_backend`: under `contextlib.suppress(Exception)`,
bind the service offered by the backend's provider and take over its
`auto_save` preference; a raising provider lookup (modelled by `none`)
leaves the state untouched. -/
def _set_service_from_backend (e : ExpData) (backend : Backend) : ExpData :=
  match backend.providerService with
  | none => e
  | some srv =>
      { e with _service := some srv,
               _auto_save := srv.preferences_auto_save }

/-- The record built from `result.data(i)` by the loop body of
`_add_result_data`: inject the job id, replace a present `counts` key by the
formatted `result.get_counts(i)`, copy the header metadata when present, and
set `shots`, `meas_level` and (when present) `meas_return`. -/
def resultDatum (result : PyResult) (entry : ResultEntry) : Datum :=
  { job_id := some result.job_id
    counts :=
      if entry.data0.counts.isSome then some entry.formattedCounts
      else entry.data0.counts
    metadata :=
      match entry.headerMetadata with
      | some m => some m
      | none => entry.data0.metadata
    shots := some entry.shots
    meas_level := some entry.meas_level
    meas_return :=
      match entry.meas_return with
      | some mr => some mr
      | none => entry.data0.meas_return }

/-- `_add_result_data`: ensure a (possibly null) jobs entry for the result's
job id, then append one record per circuit result. -/
def _add_result_data (e : ExpData) (result : PyResult) : ExpData :=
  let e :=
    if odContains e._jobs result.job_id then e
    else { e with _jobs := odSet e._jobs result.job_id none }
  { e with _data := e._data ++ result.results.map (resultDatum result) }

/-- The handle recorded when `_add_job_future` submits the extraction task
for a job. -/
def pendingFuture (job : Job) : Future :=
  { done := false, resultId := job.job_id }

/-- `_add_job_future`: submit `_add_job_data` for the job unless a future is
already recorded under its id (then only a warning is logged). -/
def _add_job_future (e : ExpData) (job : Job) : ExpData :=
  if odContains e._job_futures job.job_id then e
  else
    { e with
      _job_futures := odSet e._job_futures job.job_id (pendingFuture job) }

/-- `_add_job_data`: the body of the background extraction task.  On a
successful `job.result()` the records are appended via `_add_result_data`;
a failing `job.result()` of a `CANCELLED`/`ERROR` job is logged and reported
as "not added"; any other failure re-raises. -/
def _add_job_data (e : ExpData) (job : Job) :
    ExpData × Except PyError (String × Bool) :=
  match job.result with
  | some job_result =>
      (_add_result_data e job_result, Except.ok (job.job_id, true))
  | none =>
      if job.status = JobStatus.CANCELLED then (e, Except.ok (job.job_id, false))
      else if job.status = JobStatus.ERROR then (e, Except.ok (job.job_id, false))
      else (e, Except.error PyError.jobResultError)

/-- Lines 354–365 of the `add_jobs` loop: log a backend-mismatch warning,
adopt the job's backend, and derive a service from it when none is bound. -/
def adoptBackend (e : ExpData) (job : Job) : ExpData :=
  let e := { e with _backend := some job.backend }
  if e._service.isNone then _set_service_from_backend e job.backend else e

/-- Line 372 of `add_jobs`: `self._jobs[jid] = job`. -/
def addJobsRecord (e : ExpData) (job : Job) : ExpData :=
  { e with _jobs := odSet e._jobs job.job_id (some job) }

/-- The per-job loop of `add_jobs`: adopt the job's backend (mismatch is a
logged warning only), derive a service from it when none is bound, then
record the job and submit its extraction future unless its id is already
tracked; with a timeout the freshly added ids are collected. -/
def addJobsLoop (timeout : Option Nat) :
    List Job → ExpData → List String → ExpData × List String
  | [], e, timeout_ids => (e, timeout_ids)
  | job :: rest, e, timeout_ids =>
      let e := adoptBackend e job
      if odContains e._jobs job.job_id then
        addJobsLoop timeout rest e timeout_ids
      else
        let e := addJobsRecord e job
        if odContains e._job_futures job.job_id then
          addJobsLoop timeout rest e timeout_ids
        else
          let e := _add_job_future e job
          match timeout with
          | some _ => addJobsLoop timeout rest e (timeout_ids ++ [job.job_id])
          | none => addJobsLoop timeout rest e timeout_ids

/-- `add_jobs(jobs, timeout)`: run the per-job loop, submit the
timeout-cancellation task when ids were collected (recorded in the ghost
`_timeout_tasks`), and auto-save the metadata when enabled. -/
def add_jobs (jobs : List Job) (timeout : Option Nat) (e : ExpData) : ExpData :=
  let r := addJobsLoop timeout jobs e []
  let e := r.1
  let e :=
    if r.2.isEmpty then e
    else { e with _timeout_tasks := e._timeout_tasks ++ [r.2] }
  if e._auto_save then save_metadata e else e

/-- One element of the `data` argument of `add_data`; `invalid` stands for
any unrecognized item kind (raising `TypeError`). -/
inductive DataItem
  | dict (d : Datum)
  | result (r : PyResult)
  | job (j : Job)
  | invalid
  deriving DecidableEq, Repr

/-- The item loop of `add_data`: dicts are appended verbatim, `Result`
objects go through `_add_result_data`, jobs are collected for the deprecated
`add_jobs` delegation, and anything else raises `TypeError` (aborting the
loop with earlier appends kept). -/
def addDataLoop :
    List DataItem → ExpData → List Job → ExpData × List Job × Except PyError Unit
  | [], e, jobs => (e, jobs, Except.ok ())
  | item :: rest, e, jobs =>
      match item with
      | .job j => addDataLoop rest e (jobs ++ [j])
      | .dict d => addDataLoop rest { e with _data := e._data ++ [d] } jobs
      | .result r => addDataLoop rest (_add_result_data e r) jobs
      | .invalid => (e, jobs, Except.error PyError.typeError)

/-- `add_data(data, timeout)`: run the item loop, then delegate collected
jobs (deprecated path) to `add_jobs`. -/
def add_data (data : List DataItem) (timeout : Option Nat) (e : ExpData) :
    ExpData × Except PyError Unit :=
  match addDataLoop data e [] with
  | (e, _, Except.error err) => (e, Except.error err)
  | (e, jobs, Except.ok _) =>
      if jobs.isEmpty then (e, Except.ok ())
      else (add_jobs jobs timeout e, Except.ok ())

/-- A raw-data record is covered by the jobs map: if it carries a `job_id`
key, that id has a (possibly null) entry in the jobs map. -/
def datumTracked (jobs : List (String × Option Job)) (d : Datum) : Bool :=
  match d.job_id with
  | some jid => odContains jobs jid
  | none => true

/-- The claimed invariant: every record in the raw-data list has a
corresponding (possibly null) entry under its job id in the jobs map. -/
def dataJobsInvariant (e : ExpData) : Bool :=
  e._data.all (datumTracked e._jobs)

end DbExpData

namespace DbExpData

theorem odGet_odSet_self {α : Type} (m : List (String × α)) (k : String)
    (v : α) : odGet (odSet m k v) k = some v := by
  induction m with
  | nil => simp [odSet, odGet]
  | cons p rest ih =>
      obtain ⟨a, b⟩ := p
      by_cases h : a = k
      · simp [odSet, odGet, h]
      · simp [odSet, odGet, h, ih]

theorem odGet_odSet_ne {α : Type} (m : List (String × α)) (k k' : String)
    (v : α) (h : k' ≠ k) : odGet (odSet m k v) k' = odGet m k' := by
  induction m with
  | nil => simp [odSet, odGet, Ne.symm h]
  | cons p rest ih =>
      obtain ⟨a, b⟩ := p
      by_cases hak : a = k
      · subst hak
        simp [odSet, odGet, Ne.symm h]
      · simp [odSet, odGet, hak, ih]

theorem odContains_odSet_self {α : Type} (m : List (String × α)) (k : String)
    (v : α) : odContains (odSet m k v) k = true := by
  simp [odContains, odGet_odSet_self]

theorem odContains_odSet_of {α : Type} (m : List (String × α))
    (k k' : String) (v : α) (h : odContains m k' = true) :
    odContains (odSet m k v) k' = true := by
  by_cases hk : k' = k
  · subst hk
    simp [odContains, odGet_odSet_self]
  · simpa [odContains, odGet_odSet_ne m k k' v hk] using h

theorem odSet_not_contains {α : Type} (m : List (String × α)) (k : String)
    (v : α) (h : odContains m k = false) : odSet m k v = m ++ [(k, v)] := by
  induction m with
  | nil => simp [odSet]
  | cons p rest ih =>
      obtain ⟨a, b⟩ := p
      by_cases hak : a = k
      · simp [odContains, odGet, hak] at h
      · simp only [odContains, odGet, hak, if_false] at h
        simp [odSet, hak, ih h]

theorem odContains_iff_mem_keys {α : Type} (m : List (String × α))
    (k : String) : odContains m k = true ↔ k ∈ m.map Prod.fst := by
  induction m with
  | nil => simp [odContains, odGet]
  | cons p rest ih =>
      obtain ⟨a, b⟩ := p
      by_cases hak : a = k
      · subst hak
        simp [odContains, odGet]
      · have hka : k ≠ a := fun hh => hak hh.symm
        show (if a = k then some b else odGet rest k).isSome = true ↔
          k ∈ List.map Prod.fst ((a, b) :: rest)
        rw [if_neg hak]
        show odContains rest k = true ↔ k ∈ List.map Prod.fst ((a, b) :: rest)
        rw [ih]
        simp [hka]

theorem datumTracked_mono (jobs jobs' : List (String × Option Job))
    (hsub : ∀ j, odContains jobs j = true → odContains jobs' j = true)
    (d : Datum) (h : datumTracked jobs d = true) :
    datumTracked jobs' d = true := by
  unfold datumTracked at h ⊢
  cases hd : d.job_id with
  | none => rfl
  | some jid =>
      rw [hd] at h
      exact hsub jid h

theorem _set_service_from_backend_frame (e : ExpData) (b : Backend) :
    (_set_service_from_backend e b)._jobs = e._jobs ∧
    (_set_service_from_backend e b)._data = e._data ∧
    (_set_service_from_backend e b)._job_futures = e._job_futures := by
  unfold _set_service_from_backend
  cases b.providerService <;> simp

theorem adoptBackend_frame (e : ExpData) (job : Job) :
    (adoptBackend e job)._jobs = e._jobs ∧
    (adoptBackend e job)._data = e._data ∧
    (adoptBackend e job)._job_futures = e._job_futures := by
  unfold adoptBackend
  by_cases hs : ({ e with _backend := some job.backend } : ExpData)._service.isNone
  · simpa [hs] using _set_service_from_backend_frame _ job.backend
  · simp [hs]

theorem _add_job_future_frame (e : ExpData) (job : Job) :
    (_add_job_future e job)._jobs = e._jobs ∧
    (_add_job_future e job)._data = e._data := by
  unfold _add_job_future
  by_cases h : odContains e._job_futures job.job_id <;> simp [h]

end DbExpData

namespace DbExpData

theorem _add_result_data_jobs_mono (e : ExpData) (r : PyResult) (k : String)
    (h : odContains e._jobs k = true) :
    odContains (_add_result_data e r)._jobs k = true := by
  unfold _add_result_data
  by_cases hc : odContains e._jobs r.job_id = true
  · simpa [hc] using h
  · simp only [hc, if_false]
    simpa using odContains_odSet_of _ _ _ _ h

theorem _add_result_data_inv (e : ExpData) (r : PyResult)
    (h : dataJobsInvariant e = true) :
    dataJobsInvariant (_add_result_data e r) = true := by
  unfold dataJobsInvariant at h
  have hmono : ∀ k, odContains e._jobs k = true →
      odContains (_add_result_data e r)._jobs k = true :=
    fun k hk => _add_result_data_jobs_mono e r k hk
  have hself : odContains (_add_result_data e r)._jobs r.job_id = true := by
    unfold _add_result_data
    by_cases hc : odContains e._jobs r.job_id = true
    · simp only [hc, if_true]
    · simp only [hc, if_false]
      simpa using odContains_odSet_self e._jobs r.job_id none
  have hdata : (_add_result_data e r)._data =
      e._data ++ r.results.map (resultDatum r) := by
    unfold _add_result_data
    by_cases hc : odContains e._jobs r.job_id = true <;> simp [hc]
  unfold dataJobsInvariant
  rw [hdata, List.all_append, Bool.and_eq_true]
  refine ⟨?_, ?_⟩
  · rw [List.all_eq_true] at h ⊢
    intro d hd
    exact datumTracked_mono e._jobs _ hmono d (h d hd)
  · rw [List.all_eq_true]
    intro d hd
    rcases List.mem_map.mp hd with ⟨entry, _, hde⟩
    subst hde
    show datumTracked (_add_result_data e r)._jobs (resultDatum r entry) = true
    unfold datumTracked resultDatum
    exact hself

theorem addJobsRecord_frame (e : ExpData) (job : Job) :
    (addJobsRecord e job)._data = e._data ∧
    (addJobsRecord e job)._job_futures = e._job_futures ∧
    (addJobsRecord e job)._jobs = odSet e._jobs job.job_id (some job) :=
  ⟨rfl, rfl, rfl⟩

theorem addJobsLoop_frame (t : Option Nat) (jobs : List Job) :
    ∀ (e : ExpData) (tids : List String),
      (addJobsLoop t jobs e tids).1._data = e._data ∧
      (∀ k, odContains e._jobs k = true →
        odContains (addJobsLoop t jobs e tids).1._jobs k = true) := by
  induction jobs with
  | nil => exact fun e tids => ⟨rfl, fun k h => h⟩
  | cons job rest ih =>
      intro e tids
      obtain ⟨haj, had, haf⟩ := adoptBackend_frame e job
      simp only [addJobsLoop]
      by_cases hc : odContains (adoptBackend e job)._jobs job.job_id = true
      · simp only [hc, if_true]
        obtain ⟨ihd, ihj⟩ := ih (adoptBackend e job) tids
        exact ⟨ihd.trans had, fun k hk => ihj k (by rw [haj]; exact hk)⟩
      · simp only [hc, if_false]
        have hrec_d : (addJobsRecord (adoptBackend e job) job)._data = e._data := by
          rw [(addJobsRecord_frame _ _).1, had]
        have hrec_j : ∀ k, odContains e._jobs k = true →
            odContains (addJobsRecord (adoptBackend e job) job)._jobs k = true := by
          intro k hk
          rw [(addJobsRecord_frame _ _).2.2, haj]
          exact odContains_odSet_of _ _ _ _ hk
        by_cases hff : odContains
            (addJobsRecord (adoptBackend e job) job)._job_futures job.job_id = true
        · simp only [hff, if_true]
          obtain ⟨ihd, ihj⟩ := ih (addJobsRecord (adoptBackend e job) job) tids
          exact ⟨ihd.trans hrec_d, fun k hk => ihj k (hrec_j k hk)⟩
        · simp only [hff, if_false]
          have hfut_d : (_add_job_future
              (addJobsRecord (adoptBackend e job) job) job)._data = e._data := by
            rw [(_add_job_future_frame _ _).2, hrec_d]
          have hfut_j : ∀ k, odContains e._jobs k = true →
              odContains (_add_job_future
                (addJobsRecord (adoptBackend e job) job) job)._jobs k = true := by
            intro k hk
            rw [(_add_job_future_frame _ _).1]
            exact hrec_j k hk
          cases t with
          | none =>
              obtain ⟨ihd, ihj⟩ := ih (_add_job_future
                (addJobsRecord (adoptBackend e job) job) job) tids
              exact ⟨ihd.trans hfut_d, fun k hk => ihj k (hfut_j k hk)⟩
          | some tt =>
              obtain ⟨ihd, ihj⟩ := ih (_add_job_future
                (addJobsRecord (adoptBackend e job) job) job) (tids ++ [job.job_id])
              exact ⟨ihd.trans hfut_d, fun k hk => ihj k (hfut_j k hk)⟩

end DbExpData

namespace DbExpData

theorem add_jobs_jobs_eq (jobs : List Job) (t : Option Nat) (e : ExpData) :
    (add_jobs jobs t e)._jobs = (addJobsLoop t jobs e []).1._jobs := by
  simp only [add_jobs]
  split <;> split <;> simp [save_metadata]

theorem add_jobs_data_eq (jobs : List Job) (t : Option Nat) (e : ExpData) :
    (add_jobs jobs t e)._data = (addJobsLoop t jobs e []).1._data := by
  simp only [add_jobs]
  split <;> split <;> simp [save_metadata]

theorem add_jobs_frame (jobs : List Job) (t : Option Nat) (e : ExpData) :
    (add_jobs jobs t e)._data = e._data ∧
    (∀ k, odContains e._jobs k = true →
      odContains (add_jobs jobs t e)._jobs k = true) := by
  obtain ⟨hd, hj⟩ := addJobsLoop_frame t jobs e []
  refine ⟨?_, fun k hk => ?_⟩
  · rw [add_jobs_data_eq]
    exact hd
  · rw [add_jobs_jobs_eq]
    exact hj k hk

theorem add_jobs_inv (jobs : List Job) (t : Option Nat) (e : ExpData)
    (h : dataJobsInvariant e = true) :
    dataJobsInvariant (add_jobs jobs t e) = true := by
  obtain ⟨hd, hj⟩ := add_jobs_frame jobs t e
  unfold dataJobsInvariant at h ⊢
  rw [hd]
  rw [List.all_eq_true] at h ⊢
  intro d hdm
  exact datumTracked_mono e._jobs _ hj d (h d hdm)

theorem _add_job_data_inv (e : ExpData) (job : Job)
    (h : dataJobsInvariant e = true) :
    dataJobsInvariant (_add_job_data e job).1 = true := by
  unfold _add_job_data
  split
  · exact _add_result_data_inv e _ h
  · split
    · exact h
    · split
      · exact h
      · exact h

theorem addDataLoop_inv (items : List DataItem) :
    ∀ (e : ExpData) (jobs0 : List Job),
      dataJobsInvariant e = true →
      (∀ d, DataItem.dict d ∈ items → datumTracked e._jobs d = true) →
      dataJobsInvariant (addDataLoop items e jobs0).1 = true ∧
      (∀ k, odContains e._jobs k = true →
        odContains (addDataLoop items e jobs0).1._jobs k = true) := by
  induction items with
  | nil => exact fun e jobs0 h _ => ⟨h, fun k hk => hk⟩
  | cons item rest ih =>
      intro e jobs0 h hdicts
      cases item with
      | job j =>
          simp only [addDataLoop]
          exact ih e (jobs0 ++ [j]) h
            (fun d hd => hdicts d (List.mem_cons_of_mem _ hd))
      | dict d =>
          simp only [addDataLoop]
          have h' : dataJobsInvariant { e with _data := e._data ++ [d] } = true := by
            unfold dataJobsInvariant at h ⊢
            simp only [List.all_append, Bool.and_eq_true]
            refine ⟨h, ?_⟩
            simp [hdicts d (List.mem_cons_self _ _)]
          exact ih _ jobs0 h'
            (fun d' hd' => hdicts d' (List.mem_cons_of_mem _ hd'))
      | result r =>
          simp only [addDataLoop]
          have h' := _add_result_data_inv e r h
          obtain ⟨ih1, ih2⟩ := ih (_add_result_data e r) jobs0 h'
            (fun d' hd' =>
              datumTracked_mono e._jobs _
                (fun k hk => _add_result_data_jobs_mono e r k hk) d'
                (hdicts d' (List.mem_cons_of_mem _ hd')))
          exact ⟨ih1, fun k hk => ih2 k (_add_result_data_jobs_mono e r k hk)⟩
      | invalid =>
          simp only [addDataLoop]
          exact ⟨h, fun k hk => hk⟩

theorem add_data_inv (items : List DataItem) (t : Option Nat) (e : ExpData)
    (h : dataJobsInvariant e = true)
    (hdicts : ∀ d, DataItem.dict d ∈ items → datumTracked e._jobs d = true) :
    dataJobsInvariant (add_data items t e).1 = true := by
  obtain ⟨h1, _⟩ := addDataLoop_inv items e [] h hdicts
  unfold add_data
  rcases hres : addDataLoop items e [] with ⟨e1, jobs1, res1⟩
  rw [hres] at h1
  cases res1 with
  | error err => exact h1
  | ok u =>
      simp only []
      split
      · exact h1
      · exact add_jobs_inv jobs1 t e1 h1

end DbExpData

namespace DbExpData

/-- A `Result` with one circuit entry, used by the C3 witness. -/
def rW : PyResult := { job_id := "J1", results := [{}] }

/-- A finished job delivering `rW`, used by the C3 witness. -/
def jobW : Job := { job_id := "J2", status := JobStatus.DONE,
                    result := some { job_id := "J2", results := [{}] } }

/-- C3 counterexample: on an empty container the invariant holds, but
`add_data` with a plain dict carrying `job_id = "J1"` appends the record
without touching the jobs map, so the invariant is broken afterwards. -/
theorem C3_counterexample :
    dataJobsInvariant ({} : ExpData) = true ∧
    dataJobsInvariant
      (add_data [DataItem.dict { job_id := some "J1" }] none
        ({} : ExpData)).1 = false := by
  decide

/-- C3 (amended): the raw-data/jobs-map invariant is preserved by
`_add_result_data` (Result inputs) and by the background job-data
extraction `_add_job_data`, and by `add_data` provided every dict item's
`job_id` key, when present, is already tracked in the jobs map; a dict with
an untracked job id violates it (see the counterexample). -/
theorem C3_add_data_inv_amended (e : ExpData) (items : List DataItem)
    (t : Option Nat) (job : Job)
    (hinv : dataJobsInvariant e = true)
    (hdicts : ∀ d, DataItem.dict d ∈ items → datumTracked e._jobs d = true) :
    dataJobsInvariant (add_data items t e).1 = true ∧
    (∀ r : PyResult, dataJobsInvariant (_add_result_data e r) = true) ∧
    dataJobsInvariant (_add_job_data e job).1 = true :=
  ⟨add_data_inv items t e hinv hdicts,
   fun r => _add_result_data_inv e r hinv,
   _add_job_data_inv e job hinv⟩

/-- Witness for C3 (amended) at concrete inputs: a Result item and a
finished job preserve the invariant on the empty container. -/
theorem C3_add_data_inv_amended_witness :
    dataJobsInvariant ({} : ExpData) = true ∧
    dataJobsInvariant (add_data [DataItem.result rW] none ({} : ExpData)).1 = true ∧
    dataJobsInvariant (_add_job_data ({} : ExpData) jobW).1 = true := by
  have h := C3_add_data_inv_amended ({} : ExpData) [DataItem.result rW] none jobW
    (by decide) (by intro d hd; simp at hd)
  exact ⟨by decide, h.1, h.2.2⟩

end DbExpData

namespace DbExpData

/-- First-seen insertion: append a key unless it is already present
(the order in which `dict` assignment grows the key list). -/
def firstSeenInsert (acc : List String) (x : String) : List String :=
  if x ∈ acc then acc else acc ++ [x]

theorem mem_foldl_firstSeenInsert (ids : List String) :
    ∀ (acc : List String) (x : String),
      x ∈ ids.foldl firstSeenInsert acc ↔ x ∈ acc ∨ x ∈ ids := by
  induction ids with
  | nil => intro acc x; simp
  | cons i rest ih =>
      intro acc x
      by_cases hmem : i ∈ acc
      · simp only [List.foldl_cons, firstSeenInsert, if_pos hmem, ih,
          List.mem_cons]
        constructor
        · rintro (h | h)
          · exact Or.inl h
          · exact Or.inr (Or.inr h)
        · rintro (h | h | h)
          · exact Or.inl h
          · exact Or.inl (h ▸ hmem)
          · exact Or.inr h
      · simp only [List.foldl_cons, firstSeenInsert, if_neg hmem, ih,
          List.mem_append, List.mem_cons, List.mem_singleton]
        tauto

theorem nodup_foldl_firstSeenInsert (ids : List String) :
    ∀ acc : List String, acc.Nodup → (ids.foldl firstSeenInsert acc).Nodup := by
  induction ids with
  | nil => exact fun acc h => h
  | cons i rest ih =>
      intro acc h
      simp only [List.foldl_cons, firstSeenInsert]
      by_cases hmem : i ∈ acc
      · rw [if_pos hmem]
        exact ih acc h
      · rw [if_neg hmem]
        refine ih _ ?_
        rw [List.nodup_append]
        refine ⟨h, List.nodup_singleton i, ?_⟩
        intro a ha hai
        rw [List.mem_singleton] at hai
        exact hmem (hai ▸ ha)

theorem addJobsLoop_keys (t : Option Nat) (jobs : List Job) :
    ∀ (e : ExpData) (tids : List String),
      job_ids (addJobsLoop t jobs e tids).1 =
        (jobs.map Job.job_id).foldl firstSeenInsert (job_ids e) := by
  induction jobs with
  | nil => intro e tids; rfl
  | cons job rest ih =>
      intro e tids
      obtain ⟨haj, _, _⟩ := adoptBackend_frame e job
      have hkeq : job_ids (adoptBackend e job) = job_ids e := by
        unfold job_ids
        rw [haj]
      simp only [addJobsLoop, List.map_cons, List.foldl_cons]
      by_cases hc : odContains (adoptBackend e job)._jobs job.job_id = true
      · simp only [hc, if_true]
        have hmem : job.job_id ∈ job_ids e :=
          (odContains_iff_mem_keys e._jobs job.job_id).mp (by rw [← haj]; exact hc)
        rw [ih, hkeq, firstSeenInsert, if_pos hmem]
      · have hcf : odContains (adoptBackend e job)._jobs job.job_id = false := by
          revert hc
          cases odContains (adoptBackend e job)._jobs job.job_id <;> simp
        simp only [hcf, Bool.false_eq_true, if_false]
        have hnot : job.job_id ∉ job_ids e := by
          intro hm
          have hct : odContains (adoptBackend e job)._jobs job.job_id = true := by
            rw [haj]
            exact (odContains_iff_mem_keys e._jobs job.job_id).mpr hm
          rw [hct] at hcf
          exact Bool.noConfusion hcf
        have hkeys : job_ids (addJobsRecord (adoptBackend e job) job) =
            job_ids e ++ [job.job_id] := by
          unfold job_ids addJobsRecord
          show List.map Prod.fst
            (odSet (adoptBackend e job)._jobs job.job_id (some job)) = _
          rw [odSet_not_contains _ _ _ hcf, List.map_append, haj]
          rfl
        have hfkeys : job_ids (_add_job_future
            (addJobsRecord (adoptBackend e job) job) job) =
            job_ids e ++ [job.job_id] := by
          unfold job_ids
          rw [(_add_job_future_frame _ _).1]
          exact hkeys
        have hstep : firstSeenInsert (job_ids e) job.job_id =
            job_ids e ++ [job.job_id] := by
          rw [firstSeenInsert, if_neg hnot]
        by_cases hff : odContains
            (addJobsRecord (adoptBackend e job) job)._job_futures job.job_id = true
        · simp only [hff, if_true]
          rw [ih, hkeys, hstep]
        · have hfff : odContains
              (addJobsRecord (adoptBackend e job) job)._job_futures
                job.job_id = false := by
            revert hff
            cases odContains
              (addJobsRecord (adoptBackend e job) job)._job_futures job.job_id <;>
              simp
          simp only [hfff, Bool.false_eq_true, if_false]
          cases t with
          | none => rw [ih, hfkeys, hstep]
          | some tt => rw [ih, hfkeys, hstep]

theorem add_jobs_keys (jobs : List Job) (t : Option Nat) (e : ExpData) :
    job_ids (add_jobs jobs t e) =
      (jobs.map Job.job_id).foldl firstSeenInsert (job_ids e) := by
  have h1 := addJobsLoop_keys t jobs e []
  unfold job_ids at h1 ⊢
  rw [add_jobs_jobs_eq]
  exact h1

theorem add_jobs_dup (job : Job) (t : Option Nat) (e : ExpData)
    (h : odContains e._jobs job.job_id = true) :
    (add_jobs [job] t e)._jobs = e._jobs := by
  rw [add_jobs_jobs_eq]
  have hc : odContains (adoptBackend e job)._jobs job.job_id = true := by
    rw [(adoptBackend_frame e job).1]
    exact h
  simp only [addJobsLoop, hc, if_true]
  exact (adoptBackend_frame e job).1

/-- A sequence of `add_jobs` calls, each with its own job list and
timeout. -/
def applyAddJobs (calls : List (List Job × Option Nat)) (e : ExpData) :
    ExpData :=
  calls.foldl (fun e c => add_jobs c.1 c.2 e) e

theorem applyAddJobs_keys (calls : List (List Job × Option Nat)) :
    ∀ e : ExpData, job_ids (applyAddJobs calls e) =
      ((calls.map Prod.fst).flatten.map Job.job_id).foldl firstSeenInsert
        (job_ids e) := by
  induction calls with
  | nil => intro e; rfl
  | cons c rest ih =>
      intro e
      show job_ids (applyAddJobs rest (add_jobs c.1 c.2 e)) = _
      rw [ih, add_jobs_keys]
      simp [List.foldl_append]

end DbExpData

namespace DbExpData

/-- C5: starting from a container that tracks no jobs, any sequence of
`add_jobs` calls leaves `job_ids` holding exactly the distinct job ids
added, in first-seen order (deduplicating fold, no duplicates, same
membership); and an `add_jobs` call for a job whose id is already tracked
leaves the jobs map unchanged. -/
theorem C5_add_jobs_spec (calls : List (List Job × Option Nat)) (e : ExpData)
    (h0 : e._jobs = []) (e' : ExpData) (dup : Job) (t : Option Nat)
    (hdup : odContains e'._jobs dup.job_id = true) :
    job_ids (applyAddJobs calls e) =
      ((calls.map Prod.fst).flatten.map Job.job_id).foldl firstSeenInsert [] ∧
    (job_ids (applyAddJobs calls e)).Nodup ∧
    (∀ x, x ∈ job_ids (applyAddJobs calls e) ↔
      x ∈ (calls.map Prod.fst).flatten.map Job.job_id) ∧
    (add_jobs [dup] t e')._jobs = e'._jobs := by
  have hje : job_ids e = [] := by
    unfold job_ids
    rw [h0]
    rfl
  have h1 := applyAddJobs_keys calls e
  rw [hje] at h1
  refine ⟨h1, ?_, ?_, add_jobs_dup dup t e' hdup⟩
  · rw [h1]
    exact nodup_foldl_firstSeenInsert _ [] List.nodup_nil
  · intro x
    rw [h1, mem_foldl_firstSeenInsert]
    simp

/-- Concrete jobs for the C5 witness. -/
def jA : Job := { job_id := "A" }

/-- Second concrete job for the C5 witness. -/
def jB : Job := { job_id := "B" }

/-- A different job handle re-using id "B", for the duplicate-skip part. -/
def jB2 : Job := { job_id := "B", status := JobStatus.RUNNING }

/-- Third concrete job for the C5 witness. -/
def jC : Job := { job_id := "C" }

/-- The two-call sequence of the C5 witness; the second call re-adds id
"B". -/
def callsW : List (List Job × Option Nat) := [([jA, jB], none), ([jB2, jC], none)]

/-- A container already tracking id "A", for the duplicate-skip part of the
C5 witness. -/
def e5' : ExpData := { _jobs := [("A", some jA)] }

/-- Witness for C5 at concrete inputs: two calls adding ids A, B, B, C
yield `job_ids = [A, B, C]`, and re-adding a tracked id leaves the jobs map
unchanged. -/
theorem C5_add_jobs_spec_witness :
    ({} : ExpData)._jobs = [] ∧
    odContains e5'._jobs jA.job_id = true ∧
    job_ids (applyAddJobs callsW ({} : ExpData)) = ["A", "B", "C"] ∧
    (add_jobs [jA] none e5')._jobs = e5'._jobs := by
  have h := C5_add_jobs_spec callsW ({} : ExpData) rfl e5' jA none (by decide)
  refine ⟨rfl, by decide, ?_, h.2.2.2⟩
  rw [h.1]
  decide

end DbExpData

namespace DbExpData

/-- The `auto_save` property setter: a transition to `True` from a
non-auto-save state triggers a full `save()` first; the flag is then stored
and propagated to every stored analysis result (writing the private
attribute directly to avoid duplicate saves). -/
def auto_save_setter (save_val : Bool) (e : ExpData) : ExpData :=
  let e := if save_val && !e._auto_save then save e else e
  let e := { e with _auto_save := save_val }
  { e with
    _analysis_results :=
      e._analysis_results.map (fun p => (p.1, { p.2 with auto_save := save_val })) }

/-- `_set_service` (also the `service` property setter): reject a second
binding with `DbExperimentDataError`; otherwise bind the service, propagate
it to every stored analysis result, and (under `contextlib.suppress`) adopt
the service's `auto_save` option through the `auto_save` setter. -/
def _set_service (service : Service) (e : ExpData) :
    ExpData × Except PyError Unit :=
  if e._service.isSome then (e, Except.error PyError.dbExperimentDataError)
  else
    let e := { e with _service := some service }
    let e :=
      { e with
        _analysis_results :=
          e._analysis_results.map
            (fun p => (p.1, { p.2 with service := some service })) }
    (auto_save_setter (service.options_auto_save.getD false) e, Except.ok ())

/-- C4: once a database service is bound, every further assignment through
the service setter raises `DbExperimentDataError` synchronously and leaves
the container (in particular the bound service) unchanged. -/
theorem C4_set_service_spec (e : ExpData) (s0 s : Service)
    (h : e._service = some s0) :
    _set_service s e = (e, Except.error PyError.dbExperimentDataError) := by
  unfold _set_service
  rw [h]
  rfl

/-- A container with a bound service, for the C4 witness. -/
def e4 : ExpData := { _service := some { name := "svc1" } }

/-- Witness for C4 at a concrete container: rebinding fails and changes
nothing. -/
theorem C4_set_service_spec_witness :
    e4._service = some { name := "svc1" } ∧
    _set_service { name := "svc2" } e4 =
      (e4, Except.error PyError.dbExperimentDataError) :=
  ⟨rfl, C4_set_service_spec e4 { name := "svc1" } { name := "svc2" } rfl⟩

/-- C9: assigning `True` to `auto_save` when it was `False` invokes a full
`save()` (not merely `save_metadata`); assigning `True` when already `True`,
or assigning `False`, performs no save call; in every case the flag is
stored and the `auto_save` of every stored analysis result is set to the
assigned value. -/
theorem C9_auto_save_setter_spec (v : Bool) (e : ExpData) :
    ((v = true ∧ e._auto_save = false) →
      (auto_save_setter v e).save_log = e.save_log ++ [SaveEvent.fullSave]) ∧
    ((v = false ∨ e._auto_save = true) →
      (auto_save_setter v e).save_log = e.save_log) ∧
    (auto_save_setter v e)._auto_save = v ∧
    (∀ p ∈ (auto_save_setter v e)._analysis_results, p.2.auto_save = v) := by
  refine ⟨?_, ?_, ?_, ?_⟩
  · rintro ⟨hv, ha⟩
    subst hv
    unfold auto_save_setter
    simp [save, ha]
  · intro h
    unfold auto_save_setter
    rcases h with h | h
    · subst h
      simp
    · simp [h]
  · unfold auto_save_setter
    cases v <;> cases ha : e._auto_save <;> simp [save, ha]
  · intro p hp
    unfold auto_save_setter at hp
    simp only [List.mem_map] at hp
    obtain ⟨q, _, hq⟩ := hp
    rw [← hq]

/-- A container with one analysis result and auto-save off, for the C9
witness. -/
def e9 : ExpData :=
  { _auto_save := false, _analysis_results := [("r1", { result_id := "r1" })] }

/-- Witness for C9 at a concrete container: switching auto-save on invokes
a full save and flips the result's flag. -/
theorem C9_auto_save_setter_spec_witness :
    e9._auto_save = false ∧
    (auto_save_setter true e9).save_log = e9.save_log ++ [SaveEvent.fullSave] ∧
    (∀ p ∈ (auto_save_setter true e9)._analysis_results, p.2.auto_save = true) :=
  ⟨rfl, (C9_auto_save_setter_spec true e9).1 ⟨rfl, rfl⟩,
   (C9_auto_save_setter_spec true e9).2.2.2⟩

end DbExpData

namespace DbExpData

/-- `any(not fut.done() for fut in self._job_futures.values())`. -/
def anyJobFutureNotDone (e : ExpData) : Bool :=
  e._job_futures.any (fun p => !p.2.done)

/-- `any(not fut.done() for fut in self._analysis_futures.values())`. -/
def anyAnalysisFutureNotDone (e : ExpData) : Bool :=
  e._analysis_futures.any (fun p => !p.2.done)

/-- `plot_to_svg_bytes`: the external matplotlib-to-SVG conversion
(`database_service/utils.py`), abstracted as an encoding of the figure
tag's characters. -/
def plot_to_svg_bytes (tag : String) : List Nat :=
  tag.toList.map Char.toNat

/-- `_safe_serialize_figures`: convert any in-memory matplotlib figure into
SVG bytes before serializing. -/
def _safe_serialize_figures (figs : List (String × Option FigureVal)) :
    List (String × Option FigureVal) :=
  figs.map (fun p =>
    (p.1,
      match p.2 with
      | some (FigureVal.mpl tag) => some (FigureVal.bytes (plot_to_svg_bytes tag))
      | v => v))

/-- `_safe_serialize_jobs`: job handles are not serializable; keep the ids
with null handles. -/
def _safe_serialize_jobs (jobs : List (String × Option Job)) :
    List (String × Option Job) :=
  jobs.map (fun p => (p.1, none))

/-- The serialized projection of the container produced by
`__json_encode__` / `__getstate__` (futures and executors removed, figures
SVG-converted, jobs reduced to ids).  The JSON encoder's omission of falsy
attributes from the emitted dict is a wire-format detail not modelled. -/
structure SerializedState where
  _metadata : List (String × String) := []
  _source : String := ""
  _id : String := ""
  _parent_id : Option String := none
  _type : String := ""
  _tags : List String := []
  _share_level : Option String := none
  _notes : String := ""
  _data : List Datum := []
  _analysis_results : List (String × DbAnalysisResult) := []
  _analysis_callbacks : List (String × AnalysisCallback) := []
  _deleted_figures : List String := []
  _deleted_analysis_results : List String := []
  _created_in_db : Bool := false
  _extra_data : List (String × String) := []
  _figures : List (String × Option FigureVal) := []
  _jobs : List (String × Option Job) := []
  _service : Option Service := none
  _backend : Option Backend := none
  deriving DecidableEq, Repr

/-- `__json_encode__`: raises `QiskitError` when any job-completion or
analysis future is not yet done; otherwise emits the serialized projection
with `_service`/`_backend` dropped (set to `None`). -/
def __json_encode__ (e : ExpData) : Except PyError SerializedState :=
  if anyJobFutureNotDone e then
    Except.error (PyError.qiskitError "Not all experiment jobs have finished.")
  else if anyAnalysisFutureNotDone e then
    Except.error (PyError.qiskitError "Not all experiment analysis has finished.")
  else
    Except.ok
      { _metadata := e._metadata, _source := e._source, _id := e._id,
        _parent_id := e._parent_id, _type := e._type, _tags := e._tags,
        _share_level := e._share_level, _notes := e._notes, _data := e._data,
        _analysis_results := e._analysis_results,
        _analysis_callbacks := e._analysis_callbacks,
        _deleted_figures := e._deleted_figures,
        _deleted_analysis_results := e._deleted_analysis_results,
        _created_in_db := e._created_in_db, _extra_data := e._extra_data,
        _figures := _safe_serialize_figures e._figures,
        _jobs := _safe_serialize_jobs e._jobs,
        _service := none, _backend := none }

/-- `__getstate__` (pickling): outstanding job or analysis futures are only
logged as warnings; the state is always produced, with the future maps and
executors removed and `_figures`/`_jobs` converted as for JSON. -/
def __getstate__ (e : ExpData) : Except PyError SerializedState :=
  Except.ok
    { _metadata := e._metadata, _source := e._source, _id := e._id,
      _parent_id := e._parent_id, _type := e._type, _tags := e._tags,
      _share_level := e._share_level, _notes := e._notes, _data := e._data,
      _analysis_results := e._analysis_results,
      _analysis_callbacks := e._analysis_callbacks,
      _deleted_figures := e._deleted_figures,
      _deleted_analysis_results := e._deleted_analysis_results,
      _created_in_db := e._created_in_db, _extra_data := e._extra_data,
      _figures := _safe_serialize_figures e._figures,
      _jobs := _safe_serialize_jobs e._jobs,
      _service := e._service, _backend := e._backend }

/-- A container with one outstanding analysis future, for the C6
counterexample. -/
def eC6 : ExpData :=
  { _analysis_futures := [("cb1", { done := false, resultId := "cb1" })] }

/-- C6 counterexample: with an outstanding analysis future, pickling
(`__getstate__`, one of the two serialization hooks the claim covers) does
not raise — it succeeds, so serialization does not fail fatally "whenever"
a task is outstanding. -/
theorem C6_counterexample :
    (anyJobFutureNotDone eC6 || anyAnalysisFutureNotDone eC6) = true ∧
    (__getstate__ eC6).isOk = true := by
  decide

/-- C6 (amended): JSON serialization (`__json_encode__`) raises exactly
when some job-completion or analysis future is not yet done; pickling
(`__getstate__`) never raises for outstanding futures — it only logs
warnings and drops the future maps from the serialized state. -/
theorem C6_serialization_amended (e : ExpData) :
    ((__json_encode__ e).isOk = false ↔
      (anyJobFutureNotDone e || anyAnalysisFutureNotDone e) = true) ∧
    (__getstate__ e).isOk = true := by
  refine ⟨?_, rfl⟩
  unfold __json_encode__
  by_cases h1 : anyJobFutureNotDone e = true
  · simp [h1, Except.isOk, Except.toBool]
  · have h1f : anyJobFutureNotDone e = false := by
      revert h1
      cases anyJobFutureNotDone e <;> simp
    by_cases h2 : anyAnalysisFutureNotDone e = true
    · simp [h1f, h2, Except.isOk, Except.toBool]
    · have h2f : anyAnalysisFutureNotDone e = false := by
        revert h2
        cases anyAnalysisFutureNotDone e <;> simp
      simp [h1f, h2f, Except.isOk, Except.toBool]

end DbExpData

namespace DbExpData

/-- Whether `cancel_analysis` targets callback `cid`: the loop skips `cid`
only when `ids` is truthy (not `None`, not the empty list) and does not
contain `cid`. -/
def targeted (ids : Option (List String)) (cid : String) : Bool :=
  match ids with
  | none => true
  | some l => if l.isEmpty then true else decide (cid ∈ l)

/-- The loop of `cancel_analysis` over `reversed(callbacks.items())`:
set each targeted callback's cancellation event; a `RUNNING` callback
cannot be cancelled (clears the overall flag), every other targeted
callback is collected in `not_running`. -/
def cancelAnalysisLoop (ids : Option (List String)) :
    List (String × AnalysisCallback) →
    List (String × AnalysisCallback) × Bool × List String →
    List (String × AnalysisCallback) × Bool × List String
  | [], acc => acc
  | (cid, callback) :: rest, (cbs, all_cancelled, not_running) =>
      if targeted ids cid = false then
        cancelAnalysisLoop ids rest (cbs, all_cancelled, not_running)
      else
        let cbs := odSet cbs cid { callback with event := true }
        if callback.status = AnalysisStatus.RUNNING then
          cancelAnalysisLoop ids rest (cbs, false, not_running)
        else
          cancelAnalysisLoop ids rest (cbs, all_cancelled, not_running ++ [cid])

/-- The list comprehension
`[self._analysis_futures[cid] for cid in not_running]`: native-dict lookup
of a missing key raises `KeyError` (modelled by `none`). -/
def lookupFutures (m : List (String × Future)) :
    List String → Option (List Future)
  | [] => some []
  | cid :: rest =>
      match odGet m cid, lookupFutures m rest with
      | some f, some fs => some (f :: fs)
      | _, _ => none

/-- `cancel_analysis(ids)`: run the cancellation loop, then wait briefly for
the not-running callbacks' execution futures and delete the ones that
completed without exception.  In the sequential model the futures already
done make up `waited.done`; a callback in `not_running` whose future was
already cleaned up makes the unguarded lookup raise `KeyError`. -/
def cancel_analysis (ids : Option (List String)) (e : ExpData) :
    ExpData × Except PyError Bool :=
  let r := cancelAnalysisLoop ids e._analysis_callbacks.reverse
             (e._analysis_callbacks, true, [])
  match lookupFutures e._analysis_futures r.2.2 with
  | none => ({ e with _analysis_callbacks := r.1 }, Except.error PyError.keyError)
  | some futs =>
      let doneOk := futs.filter (fun f => f.done && !f.hasException)
      let af := doneOk.foldl
        (fun m f => if odContains m f.resultId then odDelete m f.resultId else m)
        e._analysis_futures
      ({ e with _analysis_callbacks := r.1, _analysis_futures := af },
       Except.ok r.2.1)

/-- The status field a map records for a callback id. -/
def statusOf (m : List (String × AnalysisCallback)) (c : String) :
    Option AnalysisStatus :=
  (odGet m c).map AnalysisCallback.status

end DbExpData

namespace DbExpData

theorem odGet_of_mem_nodup {α : Type} (m : List (String × α))
    (h : (m.map Prod.fst).Nodup) {p : String × α} (hp : p ∈ m) :
    odGet m p.1 = some p.2 := by
  induction m with
  | nil => cases hp
  | cons q rest ih =>
      rw [List.map_cons, List.nodup_cons] at h
      rcases List.mem_cons.mp hp with hq | hq
      · subst hq
        unfold odGet
        rw [if_pos rfl]
      · have hne : q.1 ≠ p.1 := by
          intro hcontra
          exact h.1 (hcontra ▸ List.mem_map_of_mem Prod.fst hq)
        obtain ⟨a, b⟩ := q
        unfold odGet
        rw [if_neg hne]
        exact ih h.2 hq

theorem mem_of_odGet {α : Type} (m : List (String × α)) (c : String) (v : α)
    (h : odGet m c = some v) : (c, v) ∈ m := by
  induction m with
  | nil => cases h
  | cons q rest ih =>
      obtain ⟨a, b⟩ := q
      unfold odGet at h
      by_cases hac : a = c
      · rw [if_pos hac] at h
        cases h
        exact hac ▸ List.mem_cons_self _ _
      · rw [if_neg hac] at h
        exact List.mem_cons_of_mem _ (ih h)

theorem lookupFutures_isSome (m : List (String × Future)) :
    ∀ l : List String, (∀ c ∈ l, odContains m c = true) →
      ∃ fs, lookupFutures m l = some fs := by
  intro l
  induction l with
  | nil => exact fun _ => ⟨[], rfl⟩
  | cons c rest ih =>
      intro h
      obtain ⟨f, hf⟩ := Option.isSome_iff_exists.mp
        (h c (List.mem_cons_self _ _))
      obtain ⟨fs, hfs⟩ := ih (fun c' hc' => h c' (List.mem_cons_of_mem _ hc'))
      exact ⟨f :: fs, by unfold lookupFutures; rw [hf, hfs]⟩

theorem statusOf_odSet_event (acc : List (String × AnalysisCallback))
    (cid0 : String) (cb0 : AnalysisCallback)
    (hq : odGet acc cid0 = some cb0) (c : String) :
    statusOf (odSet acc cid0 { cb0 with event := true }) c = statusOf acc c := by
  by_cases hc : c = cid0
  · subst hc
    unfold statusOf
    rw [odGet_odSet_self, hq]
    rfl
  · unfold statusOf
    rw [odGet_odSet_ne _ _ _ _ hc]

theorem cancelAnalysisLoop_flagFalse (ids : Option (List String)) :
    ∀ (l : List (String × AnalysisCallback))
      (acc : List (String × AnalysisCallback)) (nr : List String),
      (cancelAnalysisLoop ids l (acc, false, nr)).2.1 = false := by
  intro l
  induction l with
  | nil => exact fun acc nr => rfl
  | cons q rest ih =>
      intro acc nr
      obtain ⟨cid0, cb0⟩ := q
      simp only [cancelAnalysisLoop]
      by_cases ht : targeted ids cid0 = false
      · rw [if_pos ht]
        exact ih acc nr
      · rw [if_neg ht]
        by_cases hrs : cb0.status = AnalysisStatus.RUNNING
        · rw [if_pos hrs]
          exact ih _ nr
        · rw [if_neg hrs]
          exact ih _ (nr ++ [cid0])

theorem cancelAnalysisLoop_main (ids : Option (List String)) :
    ∀ (l : List (String × AnalysisCallback))
      (acc : List (String × AnalysisCallback)) (flag : Bool)
      (nr : List String),
      (l.map Prod.fst).Nodup →
      (∀ p ∈ l, odGet acc p.1 = some p.2) →
      (∀ c, statusOf (cancelAnalysisLoop ids l (acc, flag, nr)).1 c =
        statusOf acc c) ∧
      ((l.any (fun p => targeted ids p.1 &&
          decide (p.2.status = AnalysisStatus.RUNNING)) = true) →
        (cancelAnalysisLoop ids l (acc, flag, nr)).2.1 = false) ∧
      (∀ c ∈ (cancelAnalysisLoop ids l (acc, flag, nr)).2.2,
        c ∈ nr ∨ ∃ p ∈ l, p.1 = c ∧ targeted ids p.1 = true ∧
          p.2.status ≠ AnalysisStatus.RUNNING) := by
  intro l
  induction l with
  | nil =>
      intro acc flag nr _ _
      refine ⟨fun c => rfl, fun h => ?_, fun c hc => Or.inl hc⟩
      simp at h
  | cons q rest ih =>
      intro acc flag nr hnd hcons
      obtain ⟨cid0, cb0⟩ := q
      rw [List.map_cons, List.nodup_cons] at hnd
      have hq : odGet acc cid0 = some cb0 :=
        hcons (cid0, cb0) (List.mem_cons_self _ _)
      have hconsRest : ∀ p ∈ rest, odGet acc p.1 = some p.2 :=
        fun p hp => hcons p (List.mem_cons_of_mem _ hp)
      simp only [cancelAnalysisLoop]
      by_cases ht : targeted ids cid0 = false
      · rw [if_pos ht]
        obtain ⟨h1, h2, h3⟩ := ih acc flag nr hnd.2 hconsRest
        refine ⟨h1, fun hany => h2 ?_, fun c hc => ?_⟩
        · rw [List.any_cons, Bool.or_eq_true] at hany
          rcases hany with hh | hh
          · rw [ht] at hh
            simp at hh
          · exact hh
        · rcases h3 c hc with hcn | ⟨p, hp, hpp⟩
          · exact Or.inl hcn
          · exact Or.inr ⟨p, List.mem_cons_of_mem _ hp, hpp⟩
      · rw [if_neg ht]
        have hconsRest' : ∀ p ∈ rest,
            odGet (odSet acc cid0 { cb0 with event := true }) p.1 = some p.2 := by
          intro p hp
          have hne : p.1 ≠ cid0 := by
            intro hcontra
            exact hnd.1 (List.mem_map.mpr ⟨p, hp, hcontra⟩)
          rw [odGet_odSet_ne _ _ _ _ hne]
          exact hconsRest p hp
        have hstat : ∀ c,
            statusOf (odSet acc cid0 { cb0 with event := true }) c =
              statusOf acc c := statusOf_odSet_event acc cid0 cb0 hq
        by_cases hrs : cb0.status = AnalysisStatus.RUNNING
        · rw [if_pos hrs]
          obtain ⟨h1, _, h3⟩ := ih _ false nr hnd.2 hconsRest'
          refine ⟨fun c => (h1 c).trans (hstat c), fun _ =>
            cancelAnalysisLoop_flagFalse ids rest _ nr, fun c hc => ?_⟩
          rcases h3 c hc with hcn | ⟨p, hp, hpp⟩
          · exact Or.inl hcn
          · exact Or.inr ⟨p, List.mem_cons_of_mem _ hp, hpp⟩
        · rw [if_neg hrs]
          obtain ⟨h1, h2, h3⟩ := ih _ flag (nr ++ [cid0]) hnd.2 hconsRest'
          refine ⟨fun c => (h1 c).trans (hstat c), fun hany => h2 ?_,
            fun c hc => ?_⟩
          · rw [List.any_cons, Bool.or_eq_true] at hany
            rcases hany with hh | hh
            · rw [Bool.and_eq_true] at hh
              rw [decide_eq_true_eq] at hh
              exact absurd hh.2 hrs
            · exact hh
          · rcases h3 c hc with hcn | ⟨p, hp, hpp⟩
            · rcases List.mem_append.mp hcn with hcn | hcn
              · exact Or.inl hcn
              · rw [List.mem_singleton] at hcn
                exact Or.inr ⟨(cid0, cb0), List.mem_cons_self _ _,
                  hcn.symm, by revert ht; cases targeted ids cid0 <;> simp, hrs⟩
            · exact Or.inr ⟨p, List.mem_cons_of_mem _ hp, hpp⟩

end DbExpData

namespace DbExpData

/-- A `RUNNING` analysis callback, used by the C7 theorems. -/
def cbA : AnalysisCallback :=
  { name := "cb", callback_id := "A", status := AnalysisStatus.RUNNING }

/-- A finished analysis callback whose future was already cleaned up, used
by the C7 counterexample. -/
def cbB : AnalysisCallback :=
  { name := "cbb", callback_id := "B", status := AnalysisStatus.DONE }

/-- Container for the C7 counterexample: a running callback plus a DONE
callback whose execution future is no longer tracked (as after a previous
`cancel_analysis` or `block_for_results` cleaned it up). -/
def eC7 : ExpData :=
  { _analysis_callbacks := [("A", cbA), ("B", cbB)],
    _analysis_futures := [("A", { done := false, resultId := "A" })] }

/-- C7 counterexample: with a RUNNING targeted callback present,
`cancel_analysis` does not return `false` — the unguarded future lookup for
the DONE callback raises `KeyError` instead, so the call raises rather than
returning. -/
theorem C7_counterexample :
    statusOf eC7._analysis_callbacks "A" = some AnalysisStatus.RUNNING ∧
    targeted none "A" = true ∧
    (cancel_analysis none eC7).2 = Except.error PyError.keyError :=
  ⟨by decide, rfl, rfl⟩

/-- C7 (amended): provided every targeted not-running callback still has a
tracked execution future (the futures are looked up unguarded), a targeted
callback that is RUNNING keeps its status field unchanged (still RUNNING)
and `cancel_analysis` returns `false`. -/
theorem C7_cancel_analysis_amended (ids : Option (List String)) (e : ExpData)
    (cid : String) (cb : AnalysisCallback)
    (hnd : (e._analysis_callbacks.map Prod.fst).Nodup)
    (hcb : odGet e._analysis_callbacks cid = some cb)
    (hrun : cb.status = AnalysisStatus.RUNNING)
    (htgt : targeted ids cid = true)
    (hfuts : ∀ c cb', odGet e._analysis_callbacks c = some cb' →
      targeted ids c = true → cb'.status ≠ AnalysisStatus.RUNNING →
      odContains e._analysis_futures c = true) :
    statusOf (cancel_analysis ids e).1._analysis_callbacks cid =
      some AnalysisStatus.RUNNING ∧
    (cancel_analysis ids e).2 = Except.ok false := by
  have hndrev : (e._analysis_callbacks.reverse.map Prod.fst).Nodup := by
    rw [List.map_reverse, List.nodup_reverse]
    exact hnd
  have hconsrev : ∀ p ∈ e._analysis_callbacks.reverse,
      odGet e._analysis_callbacks p.1 = some p.2 := by
    intro p hp
    exact odGet_of_mem_nodup _ hnd (List.mem_reverse.mp hp)
  obtain ⟨h1, h2, h3⟩ := cancelAnalysisLoop_main ids
    e._analysis_callbacks.reverse e._analysis_callbacks true [] hndrev hconsrev
  have hmem : (cid, cb) ∈ e._analysis_callbacks.reverse :=
    List.mem_reverse.mpr (mem_of_odGet _ _ _ hcb)
  have hany : (e._analysis_callbacks.reverse.any (fun p => targeted ids p.1 &&
      decide (p.2.status = AnalysisStatus.RUNNING))) = true := by
    rw [List.any_eq_true]
    exact ⟨(cid, cb), hmem, by simp [htgt, hrun]⟩
  have hflag := h2 hany
  have hnr : ∀ c ∈ (cancelAnalysisLoop ids e._analysis_callbacks.reverse
      (e._analysis_callbacks, true, [])).2.2,
      odContains e._analysis_futures c = true := by
    intro c hc
    rcases h3 c hc with hcn | ⟨p, hp, hp1, hp2, hp3⟩
    · cases hcn
    · have hpg : odGet e._analysis_callbacks p.1 = some p.2 := hconsrev p hp
      rw [hp1] at hpg hp2
      exact hfuts c p.2 hpg hp2 hp3
  obtain ⟨fs, hfs⟩ := lookupFutures_isSome e._analysis_futures _ hnr
  simp only [cancel_analysis, hfs]
  refine ⟨?_, ?_⟩
  · show statusOf (cancelAnalysisLoop ids e._analysis_callbacks.reverse
      (e._analysis_callbacks, true, [])).1 cid = some AnalysisStatus.RUNNING
    rw [h1 cid]
    unfold statusOf
    rw [hcb]
    show some cb.status = some AnalysisStatus.RUNNING
    rw [hrun]
  · show Except.ok (cancelAnalysisLoop ids e._analysis_callbacks.reverse
      (e._analysis_callbacks, true, [])).2.1 = Except.ok false
    rw [hflag]

/-- Container for the C7 witness: a single RUNNING callback (no stale
not-running callback, so the future lookups succeed vacuously). -/
def eC7W : ExpData := { _analysis_callbacks := [("A", cbA)] }

/-- Witness for C7 (amended) at a concrete container. -/
theorem C7_cancel_analysis_amended_witness :
    statusOf eC7W._analysis_callbacks "A" = some AnalysisStatus.RUNNING ∧
    statusOf (cancel_analysis none eC7W).1._analysis_callbacks "A" =
      some AnalysisStatus.RUNNING ∧
    (cancel_analysis none eC7W).2 = Except.ok false := by
  have hfuts : ∀ c cb', odGet eC7W._analysis_callbacks c = some cb' →
      targeted none c = true → cb'.status ≠ AnalysisStatus.RUNNING →
      odContains eC7W._analysis_futures c = true := by
    intro c cb' hg _ hst
    show odContains [] c = true
    exfalso
    unfold eC7W at hg
    simp only [] at hg
    unfold odGet at hg
    by_cases hca : "A" = c
    · rw [if_pos hca] at hg
      cases hg
      exact hst rfl
    · rw [if_neg hca] at hg
      cases hg
  have h := C7_cancel_analysis_amended none eC7W "A" cbA (by decide)
    (by decide) rfl rfl hfuts
  exact ⟨by decide, h.1, h.2⟩

end DbExpData

namespace DbExpData

/-- Python `str.endswith`. -/
def endswith (s suf : String) : Bool := List.isSuffixOf suf.data s.data

/-- Lines 690–692 of `add_figures`: append `".svg"` to a figure name that
lacks the extension. -/
def svgName (fig_name : String) : String :=
  if endswith fig_name ".svg" then fig_name else fig_name ++ ".svg"

/-- The value stored for a figure argument: a path is read from the file
system `fs`, bytes and matplotlib figures are stored as given. -/
def figStored (fs : String → List Nat) : FigureInput → FigureVal
  | FigureInput.path p => FigureVal.bytes (fs p)
  | FigureInput.bytes b => FigureVal.bytes b
  | FigureInput.mpl tag => FigureVal.mpl tag

/-- The generated name for an unnamed non-path figure:
`"{type}_Fig-{len(figures)}_Exp-{id[:8]}.svg"`. -/
def genFigName (e : ExpData) : String :=
  e._type ++ "_Fig-" ++ toString e._figures.length ++ "_Exp-" ++
    (e._id.take 8) ++ ".svg"

/-- Return value of `add_figures`: a bare name for a single figure, a list
otherwise. -/
inductive FigReturn
  | single (s : String)
  | many (l : List String)
  deriving DecidableEq, Repr

/-- Lines 708–723 of `add_figures`: when saving is requested and a service
is bound, upload the figure through `save_data`
(`create_figure`/`update_figure` depending on whether the name is new); the
remote call is recorded in the ghost log. -/
def figUpload (e : ExpData) (doSave : Bool) (fig_name : String)
    (isNew : Bool) : ExpData :=
  if doSave && e._service.isSome then
    { e with save_log := e.save_log ++ [SaveEvent.figureUpload fig_name isNew] }
  else e

/-- Lines 678–688 of `add_figures`: the figure's name is the supplied one,
else the path for a path figure, else generated. -/
def resolveFigName (e : ExpData) (figure : FigureInput)
    (oname : Option String) : String :=
  match oname with
  | some n => n
  | none =>
      match figure with
      | FigureInput.path p => p
      | _ => genFigName e

/-- The per-figure loop of `add_figures`: resolve the name (supplied, path,
or generated), append the `.svg` extension when missing, raise
`DbExperimentEntryExists` for an existing name without `overwrite`, store
the figure, and upload it when saving is enabled and a service is bound. -/
def addFigLoop (fs : String → List Nat) (overwrite : Bool)
    (save_figure : Option Bool) :
    List (FigureInput × Option String) → ExpData → List String →
    ExpData × Except PyError (List String)
  | [], e, added => (e, Except.ok added)
  | (figure, oname) :: rest, e, added =>
      let fig_name := svgName (resolveFigName e figure oname)
      let existing_figure := odContains e._figures fig_name
      if existing_figure && !overwrite then
        (e, Except.error PyError.dbExperimentEntryExists)
      else
        let e :=
          { e with
            _figures := odSet e._figures fig_name (some (figStored fs figure)) }
        let doSave := save_figure.getD e._auto_save
        let e := figUpload e doSave fig_name (!existing_figure)
        addFigLoop fs overwrite save_figure rest e (added ++ [fig_name])

/-- The tail of `add_figures`: the `@do_auto_save` decorator saves the
metadata on successful return, and a single added figure is returned as a
bare name. -/
def finishAddFigures :
    ExpData × Except PyError (List String) → ExpData × Except PyError FigReturn
  | (e, Except.error err) => (e, Except.error err)
  | (e, Except.ok added) =>
      let e := if e._auto_save then save_metadata e else e
      (e, Except.ok
        (match added with
         | [s] => FigReturn.single s
         | l => FigReturn.many l))

/-- `add_figures(figures, figure_names, overwrite, save_figure)`. -/
def add_figures (fs : String → List Nat) (figures : List FigureInput)
    (figure_names : Option (List String)) (overwrite : Bool)
    (save_figure : Option Bool) (e : ExpData) :
    ExpData × Except PyError FigReturn :=
  match figure_names with
  | some names =>
      if names.length ≠ figures.length then (e, Except.error PyError.valueError)
      else
        finishAddFigures
          (addFigLoop fs overwrite save_figure
            (figures.zip (names.map some)) e [])
  | none =>
      finishAddFigures
        (addFigLoop fs overwrite save_figure
          (figures.map (fun f => (f, none))) e [])

theorem endswith_append (n suf : String) : endswith (n ++ suf) suf = true := by
  unfold endswith
  rw [show ((n ++ suf).data) = n.data ++ suf.data from rfl,
    List.isSuffixOf_iff_suffix]
  exact List.suffix_append n.data suf.data

theorem svgName_endswith (n : String) : endswith (svgName n) ".svg" = true := by
  unfold svgName
  split
  case isTrue h => exact h
  case isFalse h => exact endswith_append n ".svg"

theorem finishAddFigures_snd (e : ExpData) (added : List String) :
    (finishAddFigures (e, Except.ok added)).2 =
      Except.ok
        (match added with
         | [s] => FigReturn.single s
         | l => FigReturn.many l) := rfl

theorem finishAddFigures_figures (e : ExpData) (added : List String) :
    (finishAddFigures (e, Except.ok added)).1._figures = e._figures := by
  show (if e._auto_save then save_metadata e else e)._figures = e._figures
  split <;> rfl

end DbExpData

namespace DbExpData

theorem figUpload_figures (e : ExpData) (d : Bool) (n : String) (b : Bool) :
    (figUpload e d n b)._figures = e._figures := by
  unfold figUpload
  split <;> rfl

set_option maxHeartbeats 1000000 in
theorem addFigLoop_named (fs : String → List Nat) (ow : Bool)
    (sv : Option Bool) :
    ∀ (names : List String) (figs : List FigureInput) (e : ExpData)
      (added : List String) (e' : ExpData) (res : List String),
      figs.length = names.length →
      addFigLoop fs ow sv (figs.zip (names.map some)) e added =
        (e', Except.ok res) →
      res = added ++ names.map svgName ∧
      (∀ s ∈ names.map svgName, odContains e'._figures s = true) ∧
      (∀ s, odContains e._figures s = true →
        odContains e'._figures s = true) := by
  intro names
  induction names with
  | nil =>
      intro figs e added e' res hlen heq
      have hfigs : figs = [] := List.length_eq_zero.mp hlen
      subst hfigs
      have heq' : ((e, Except.ok added) :
          ExpData × Except PyError (List String)) = (e', Except.ok res) := heq
      rw [Prod.mk.injEq] at heq'
      obtain ⟨he, hres⟩ := heq'
      injection hres with hres
      subst he
      subst hres
      exact ⟨by simp, fun s hs => by simp at hs, fun s h => h⟩
  | cons n ns ih =>
      intro figs e added e' res hlen heq
      cases figs with
      | nil => simp at hlen
      | cons f fsg =>
          have hlen' : fsg.length = ns.length := by simpa using hlen
          rw [List.map_cons, List.zip_cons_cons] at heq
          unfold addFigLoop at heq
          rw [show resolveFigName e f (some n) = n from rfl] at heq
          by_cases hex : (odContains e._figures (svgName n) && !ow) = true
          · rw [if_pos hex] at heq
            rw [Prod.mk.injEq] at heq
            exact absurd heq.2 (by simp)
          · rw [if_neg hex] at heq
            obtain ⟨ih1, ih2, ih3⟩ := ih fsg _ (added ++ [svgName n]) e' res
              hlen' heq
            refine ⟨?_, ?_, ?_⟩
            · rw [ih1, List.append_assoc]
              rfl
            · intro s hs
              rw [List.map_cons, List.mem_cons] at hs
              rcases hs with hs | hs
              · subst hs
                apply ih3
                rw [figUpload_figures]
                exact odContains_odSet_self _ _ _
              · exact ih2 s hs
            · intro s hcont
              apply ih3
              rw [figUpload_figures]
              exact odContains_odSet_of _ _ _ _ hcont

end DbExpData

namespace DbExpData

/-- C8 (amended): for a stored figure name `N` that carries the `.svg`
extension (as every name stored by `add_figures` itself does), adding a
single figure under `N` with `overwrite=False` raises
`DbExperimentEntryExists` and leaves the container unchanged, while
`overwrite=True` replaces the stored blob under `N` and returns the bare
name `N`. -/
theorem C8_add_figures_spec (fs : String → List Nat) (e : ExpData)
    (N : String) (fig : FigureInput) (sv : Option Bool)
    (hN : odContains e._figures N = true)
    (hsvg : endswith N ".svg" = true) :
    add_figures fs [fig] (some [N]) false sv e =
      (e, Except.error PyError.dbExperimentEntryExists) ∧
    (add_figures fs [fig] (some [N]) true sv e).2 =
      Except.ok (FigReturn.single N) ∧
    odGet (add_figures fs [fig] (some [N]) true sv e).1._figures N =
      some (some (figStored fs fig)) := by
  have hsv : svgName N = N := by
    unfold svgName
    rw [if_pos hsvg]
  have h1 : addFigLoop fs false sv [(fig, some N)] e [] =
      (e, Except.error PyError.dbExperimentEntryExists) := by
    unfold addFigLoop
    rw [show resolveFigName e fig (some N) = N from rfl, hsv]
    rw [if_pos (by rw [hN]; rfl)]
  have h2 : addFigLoop fs true sv [(fig, some N)] e [] =
      (figUpload
        { e with _figures := odSet e._figures N (some (figStored fs fig)) }
        (sv.getD ({ e with
          _figures := odSet e._figures N (some (figStored fs fig)) }
            : ExpData)._auto_save)
        N (!odContains e._figures N), Except.ok [N]) := by
    unfold addFigLoop
    rw [show resolveFigName e fig (some N) = N from rfl, hsv]
    rw [if_neg (by rw [hN]; decide)]
    rfl
  refine ⟨?_, ?_, ?_⟩
  · show finishAddFigures (addFigLoop fs false sv [(fig, some N)] e []) =
      (e, Except.error PyError.dbExperimentEntryExists)
    rw [h1]
    rfl
  · show (finishAddFigures (addFigLoop fs true sv [(fig, some N)] e [])).2 =
      Except.ok (FigReturn.single N)
    rw [h2, finishAddFigures_snd]
  · show odGet (finishAddFigures
        (addFigLoop fs true sv [(fig, some N)] e [])).1._figures N =
      some (some (figStored fs fig))
    rw [h2, finishAddFigures_figures, figUpload_figures]
    exact odGet_odSet_self _ _ _

/-- Container for the C8 counterexample: a figure name without the `.svg`
extension, stored as a null placeholder (as the constructor's
`figure_names` argument produces). -/
def eC8 : ExpData := { _figures := [("fig", none)] }

/-- C8 counterexample: with the extension-less stored name "fig",
`add_figures` under that very name with `overwrite=False` does not raise —
the `.svg` append changes the key, so the call succeeds and returns
"fig.svg". -/
theorem C8_counterexample :
    odContains eC8._figures "fig" = true ∧
    (add_figures (fun _ => []) [FigureInput.bytes [1]] (some ["fig"]) false
      none eC8).2 = Except.ok (FigReturn.single "fig.svg") :=
  ⟨by decide, rfl⟩

/-- Container for the C8 witness: a stored `.svg` figure. -/
def eC8W : ExpData :=
  { _figures := [("f.svg", some (FigureVal.bytes [0]))] }

/-- Witness for C8 (amended) at a concrete container. -/
theorem C8_add_figures_spec_witness :
    odContains eC8W._figures "f.svg" = true ∧
    endswith "f.svg" ".svg" = true ∧
    add_figures (fun _ => []) [FigureInput.bytes [7]] (some ["f.svg"]) false
      none eC8W = (eC8W, Except.error PyError.dbExperimentEntryExists) ∧
    (add_figures (fun _ => []) [FigureInput.bytes [7]] (some ["f.svg"]) true
      none eC8W).2 = Except.ok (FigReturn.single "f.svg") := by
  have h := C8_add_figures_spec (fun _ => []) eC8W "f.svg"
    (FigureInput.bytes [7]) none (by decide) (by decide)
  exact ⟨by decide, by decide, h.1, h.2.1⟩

end DbExpData

namespace DbExpData

theorem addFigLoop_mono (fs : String → List Nat) (ow : Bool)
    (sv : Option Bool) :
    ∀ (pairs : List (FigureInput × Option String)) (e : ExpData)
      (added : List String) (e' : ExpData) (res : List String),
      addFigLoop fs ow sv pairs e added = (e', Except.ok res) →
      ∀ s, odContains e._figures s = true → odContains e'._figures s = true := by
  intro pairs
  induction pairs with
  | nil =>
      intro e added e' res heq s hcont
      have heq' : ((e, Except.ok added) :
          ExpData × Except PyError (List String)) = (e', Except.ok res) := heq
      rw [Prod.mk.injEq] at heq'
      rw [← heq'.1]
      exact hcont
  | cons p rest ih =>
      intro e added e' res heq s hcont
      obtain ⟨figure, oname⟩ := p
      unfold addFigLoop at heq
      by_cases hex :
          (odContains e._figures (svgName (resolveFigName e figure oname)) &&
            !ow) = true
      · rw [if_pos hex] at heq
        rw [Prod.mk.injEq] at heq
        exact absurd heq.2 (by simp)
      · rw [if_neg hex] at heq
        apply ih _ _ _ _ heq
        rw [figUpload_figures]
        exact odContains_odSet_of _ _ _ _ hcont

theorem addFigLoop_length (fs : String → List Nat) (ow : Bool)
    (sv : Option Bool) :
    ∀ (pairs : List (FigureInput × Option String)) (e : ExpData)
      (added : List String) (e' : ExpData) (res : List String),
      addFigLoop fs ow sv pairs e added = (e', Except.ok res) →
      res.length = added.length + pairs.length ∧
      (∀ s ∈ res, s ∈ added ∨ (endswith s ".svg" = true ∧
        odContains e'._figures s = true)) := by
  intro pairs
  induction pairs with
  | nil =>
      intro e added e' res heq
      have heq' : ((e, Except.ok added) :
          ExpData × Except PyError (List String)) = (e', Except.ok res) := heq
      rw [Prod.mk.injEq] at heq'
      obtain ⟨he, hres⟩ := heq'
      injection hres with hres
      subst he
      subst hres
      exact ⟨by simp, fun s hs => Or.inl hs⟩
  | cons p rest ih =>
      intro e added e' res heq
      obtain ⟨figure, oname⟩ := p
      unfold addFigLoop at heq
      by_cases hex :
          (odContains e._figures (svgName (resolveFigName e figure oname)) &&
            !ow) = true
      · rw [if_pos hex] at heq
        rw [Prod.mk.injEq] at heq
        exact absurd heq.2 (by simp)
      · rw [if_neg hex] at heq
        obtain ⟨ih1, ih2⟩ := ih _
          (added ++ [svgName (resolveFigName e figure oname)]) e' res heq
        refine ⟨?_, ?_⟩
        · rw [ih1]
          simp only [List.length_append, List.length_cons, List.length_nil]
          omega
        · intro s hs
          rcases ih2 s hs with hin | hh
          · rcases List.mem_append.mp hin with hin | hin
            · exact Or.inl hin
            · rw [List.mem_singleton] at hin
              subst hin
              refine Or.inr ⟨svgName_endswith _, ?_⟩
              apply addFigLoop_mono fs ow sv rest _ _ _ _ heq
              rw [figUpload_figures]
              exact odContains_odSet_self _ _ _
          · exact Or.inr hh

end DbExpData

namespace DbExpData

theorem figReturnOf_spec (added : List String) :
    (added.length = 1 → ∃ s, (match added with
      | [s] => FigReturn.single s
      | l => FigReturn.many l) = FigReturn.single s) ∧
    (added.length ≠ 1 → (match added with
      | [s] => FigReturn.single s
      | l => FigReturn.many l) = FigReturn.many added) := by
  rcases added with _ | ⟨a, _ | ⟨b, t⟩⟩
  · exact ⟨fun h => by simp at h, fun _ => rfl⟩
  · exact ⟨fun _ => ⟨a, rfl⟩, fun h => absurd rfl h⟩
  · exact ⟨fun h => by rw [List.length_cons, List.length_cons] at h; omega,
      fun _ => rfl⟩

end DbExpData

namespace DbExpData

/-- C10: whenever `add_figures` returns successfully (with supplied names
or with generated ones), the result is a bare string exactly when one
figure was added and a list when more were; with supplied names the
returned names are the supplied ones with `".svg"` appended to any name
lacking it (before the duplicate check and storage), every returned name
ends with `".svg"`, and every one is stored in the figures map. -/
theorem C10_add_figures_spec (fs : String → List Nat)
    (figures : List FigureInput) (names : List String) (ow : Bool)
    (sv : Option Bool) (e e' e0' : ExpData) (r r0 : FigReturn)
    (hrun : add_figures fs figures (some names) ow sv e =
      (e', Except.ok r))
    (hrun0 : add_figures fs figures none ow sv e =
      (e0', Except.ok r0)) :
    names.length = figures.length ∧
    r = (match names.map svgName with
         | [s] => FigReturn.single s
         | l => FigReturn.many l) ∧
    (figures.length = 1 → ∃ s, r = FigReturn.single s) ∧
    (1 < figures.length → ∃ l, r = FigReturn.many l ∧
      l.length = figures.length) ∧
    (∀ s ∈ names.map svgName, endswith s ".svg" = true ∧
      odContains e'._figures s = true) ∧
    (figures.length = 1 → ∃ s0, r0 = FigReturn.single s0) ∧
    (1 < figures.length → ∃ l0, r0 = FigReturn.many l0 ∧
      l0.length = figures.length) := by
  obtain ⟨added0, hadded0len, hr0⟩ : ∃ added0 : List String,
      added0.length = figures.length ∧
      (match added0 with
       | [s] => FigReturn.single s
       | l => FigReturn.many l) = r0 := by
    have hrun0' : finishAddFigures (addFigLoop fs ow sv
        (figures.map (fun f => (f, none))) e []) =
        (e0', Except.ok r0) := hrun0
    rcases hloop0 : addFigLoop fs ow sv
        (figures.map (fun f => (f, none))) e [] with ⟨e01, res01⟩
    rw [hloop0] at hrun0'
    cases res01 with
    | error err =>
        have h2 : ((e01, Except.error err) :
            ExpData × Except PyError FigReturn) = (e0', Except.ok r0) := hrun0'
        rw [Prod.mk.injEq] at h2
        exact absurd h2.2 (by simp)
    | ok added0 =>
        obtain ⟨hlen0, _⟩ := addFigLoop_length fs ow sv _ e [] e01 added0 hloop0
        have hr0 : (finishAddFigures (e01, Except.ok added0)).2 =
            Except.ok r0 := by
          rw [hrun0']
        rw [finishAddFigures_snd] at hr0
        injection hr0 with hr0
        refine ⟨added0, ?_, hr0⟩
        rw [hlen0]
        simp [List.length_map]
  have hshape0a : figures.length = 1 → ∃ s0, r0 = FigReturn.single s0 := by
    intro h1
    obtain ⟨hs1, _⟩ := figReturnOf_spec added0
    obtain ⟨s0, hs0⟩ := hs1 (by rw [hadded0len, h1])
    exact ⟨s0, by rw [← hr0]; exact hs0⟩
  have hshape0b : 1 < figures.length → ∃ l0, r0 = FigReturn.many l0 ∧
      l0.length = figures.length := by
    intro hgt
    obtain ⟨_, hs2⟩ := figReturnOf_spec added0
    have hne : added0.length ≠ 1 := by
      rw [hadded0len]
      omega
    refine ⟨added0, ?_, hadded0len⟩
    rw [← hr0]
    exact hs2 hne
  have hrun' : (if names.length ≠ figures.length then
      ((e, Except.error PyError.valueError) : ExpData × Except PyError FigReturn)
    else
      finishAddFigures
        (addFigLoop fs ow sv (figures.zip (names.map some)) e [])) =
      (e', Except.ok r) := hrun
  clear hrun
  by_cases hlen : names.length ≠ figures.length
  · rw [if_pos hlen] at hrun'
    rw [Prod.mk.injEq] at hrun'
    exact absurd hrun'.2 (by simp)
  · rw [if_neg hlen] at hrun'
    push_neg at hlen
    rcases hloop : addFigLoop fs ow sv (figures.zip (names.map some)) e []
      with ⟨e1, res1⟩
    rw [hloop] at hrun'
    cases res1 with
    | error err =>
        have hrun2 : ((e1, Except.error err) :
            ExpData × Except PyError FigReturn) = (e', Except.ok r) := hrun'
        rw [Prod.mk.injEq] at hrun2
        exact absurd hrun2.2 (by simp)
    | ok added =>
        obtain ⟨ih1, ih2, _⟩ := addFigLoop_named fs ow sv names figures e []
          e1 added hlen.symm hloop
        rw [List.nil_append] at ih1
        subst ih1
        have he' : (finishAddFigures
            (e1, Except.ok (names.map svgName))).1 = e' := by
          rw [hrun']
        have hr : (finishAddFigures
            (e1, Except.ok (names.map svgName))).2 = Except.ok r := by
          rw [hrun']
        rw [finishAddFigures_snd] at hr
        injection hr with hr
        have hfigs : e'._figures = e1._figures := by
          rw [← he', finishAddFigures_figures]
        have hmaplen : (names.map svgName).length = figures.length := by
          rw [List.length_map]
          exact hlen
        refine ⟨hlen, hr.symm, ?_, ?_, ?_, hshape0a, hshape0b⟩
        · intro hone
          rw [hone] at hmaplen
          obtain ⟨s, hs⟩ := List.length_eq_one.mp hmaplen
          rw [hs] at hr
          exact ⟨s, hr.symm⟩
        · intro hgt
          refine ⟨names.map svgName, ?_, hmaplen⟩
          rcases hm : names.map svgName with _ | ⟨a, t⟩
          · rw [hm] at hmaplen
            rw [← hmaplen] at hgt
            simp at hgt
          · rcases ht : t with _ | ⟨b, t2⟩
            · rw [hm, ht] at hmaplen
              rw [← hmaplen] at hgt
              simp at hgt
            · rw [hm, ht] at hr
              exact hr.symm
        · intro s hs
          refine ⟨?_, ?_⟩
          · rcases List.mem_map.mp hs with ⟨n, _, hn⟩
            rw [← hn]
            exact svgName_endswith n
          · rw [hfigs]
            exact ih2 s hs

/-- Concrete figure inputs for the C10 witness. -/
def figsW : List FigureInput := [FigureInput.bytes [1], FigureInput.mpl "m"]

/-- Concrete figure names for the C10 witness; the first lacks `.svg`. -/
def namesW : List String := ["a", "b.svg"]

/-- Witness for C10 at concrete inputs: two figures under names
`["a", "b.svg"]` are returned as the list `["a.svg", "b.svg"]`, each ending
in `.svg` and stored. -/
theorem C10_add_figures_spec_witness :
    namesW.length = figsW.length ∧
    FigReturn.many ["a.svg", "b.svg"] =
      (match namesW.map svgName with
       | [s] => FigReturn.single s
       | l => FigReturn.many l) ∧
    (∀ s ∈ namesW.map svgName, endswith s ".svg" = true ∧
      odContains (add_figures (fun _ => []) figsW (some namesW) false none
        ({} : ExpData)).1._figures s = true) := by
  have h := C10_add_figures_spec (fun _ => []) figsW namesW false none
    ({} : ExpData)
    (add_figures (fun _ => []) figsW (some namesW) false none
      ({} : ExpData)).1
    (add_figures (fun _ => []) figsW none false none ({} : ExpData)).1
    (FigReturn.many ["a.svg", "b.svg"])
    (FigReturn.many ["Unknown_Fig-0_Exp-.svg", "Unknown_Fig-1_Exp-.svg"])
    rfl rfl
  exact ⟨h.1, h.2.1, h.2.2.2.2.1⟩

end DbExpData
